import Mathlib

/-!
Verification of the 3d-ct-viewer volume pipeline.

The development shallowly embeds the JavaScript sources:
  * src/dicom_parser.js   (DicomParser.parseDicom, DicomParser.processDicomFolder)
  * src/volumerenderer.js and src/unnamed/part_000
    (VolumeRenderer.loadVolume / VolumeRaycaster.loadVolume, the sampleVolume
    and main functions of the raycasting fragment shader)

JavaScript typed arrays are modelled as List Nat with the store-time wrapping
of Uint8Array / Uint16Array made explicit (mod 256 / mod 65536).  GLSL float
arithmetic is modelled over the exact rationals.
-/

/-! ## Format Decoder: element boundary logic (src/dicom_parser.js lines 51-83) -/

/-- Little-endian 16-bit read, DataView.getUint16(off, true). -/
def readU16 (bytes : List Nat) (off : Nat) : Nat :=
  bytes.getD off 0 + 256 * bytes.getD (off + 1) 0

/-- Little-endian 32-bit read, DataView.getUint32(off, true). -/
def readU32 (bytes : List Nat) (off : Nat) : Nat :=
  bytes.getD off 0 + 256 * bytes.getD (off + 1) 0 +
    65536 * bytes.getD (off + 2) 0 + 16777216 * bytes.getD (off + 3) 0

/-- ASCII byte pairs of the long-form value representations
OB, OW, OF, SQ, UT, UN checked by the source. -/
def longFormVRCodes : List (Nat × Nat) :=
  [(79, 66), (79, 87), (79, 70), (83, 81), (85, 84), (85, 78)]

def vrIsLong (b0 b1 : Nat) : Bool :=
  longFormVRCodes.contains (b0, b1)

/-- Element length and value offset as computed by the source
(dicom_parser.js lines 57-83).  The element starts at off: 4 tag bytes, then
the two VR bytes at off+4 and off+5.  For a long-form VR the source tests the
32-bit word directly after the VR: if it is nonzero it skips 4 bytes and reads
the length from the next word, otherwise it takes that zero word itself as
the length.  For every other VR it reads a 16-bit length directly after the
VR.  Returns (length, valueOffset). -/
def parseElementAt (bytes : List Nat) (off : Nat) : Nat × Nat :=
  let b0 := bytes.getD (off + 4) 0
  let b1 := bytes.getD (off + 5) 0
  if vrIsLong b0 b1 then
    if readU32 bytes (off + 6) ≠ 0 then
      (readU32 bytes (off + 10), off + 14)
    else
      (readU32 bytes (off + 6), off + 10)
  else
    (readU16 bytes (off + 6), off + 8)

/-- Modelled from the spec: the element layout the specification describes
(spec section 4.1, step 2), which is absent from the live code path of the
source.  For a long-form VR: skip the 2 reserved bytes after the VR code,
read a 4-byte unsigned little-endian length, the value begins immediately
after.  For all other VRs: read a 2-byte unsigned length, the value begins
immediately after.  Returns (length, valueOffset). -/
def specElementAt (bytes : List Nat) (off : Nat) : Nat × Nat :=
  let b0 := bytes.getD (off + 4) 0
  let b1 := bytes.getD (off + 5) 0
  if vrIsLong b0 b1 then
    (readU32 bytes (off + 8), off + 12)
  else
    (readU16 bytes (off + 6), off + 8)

/-- A well-formed PixelData element: tag (7FE0,0010) as little-endian byte
pairs, VR code OB, two zero reserved bytes, 4-byte length 2, then the two
value bytes 171 and 205. -/
def dicomElemBytes : List Nat :=
  [224, 127, 16, 0, 79, 66, 0, 0, 2, 0, 0, 0, 171, 205]

/-! ## Volume Assembler (src/dicom_parser.js processDicomFolder) -/

/-- Pixel buffer of a decoded slice: Uint8Array or Uint16Array. -/
inductive PixelBuffer where
  | u8 (data : List Nat)
  | u16 (data : List Nat)
deriving DecidableEq, Repr

def PixelBuffer.raw : PixelBuffer → List Nat
  | .u8 d => d
  | .u16 d => d

/-- The instanceof Uint16Array test of the source. -/
def PixelBuffer.is16 : PixelBuffer → Bool
  | .u8 _ => false
  | .u16 _ => true

/-- Result of parseDicom for one file: pixelData (null when the pixel data
tag was never materialised), rows, columns, and the instance number already
defaulted to 0 as in the source. -/
structure DicomSlice where
  pixelData : Option PixelBuffer
  rows : Nat
  columns : Nat
  instanceNumber : Nat
deriving DecidableEq, Repr

/-- The filter of processDicomFolder: dicomData.pixelData, dicomData.rows and
dicomData.columns must all be truthy. -/
def DicomSlice.valid (s : DicomSlice) : Bool :=
  s.pixelData.isSome && s.rows != 0 && s.columns != 0

def sliceRaw (s : DicomSlice) : List Nat :=
  match s.pixelData with
  | some b => b.raw
  | none => []

def sliceIs16 (s : DicomSlice) : Bool :=
  match s.pixelData with
  | some b => b.is16
  | none => false

/-- The assembled volume: flat data buffer and dimensions
(columns, rows, depth). -/
structure Volume where
  data : List Nat
  dimensions : Nat × Nat × Nat
deriving DecidableEq, Repr

/-- One input file is modelled as none when its decode threw (the per-file
try/catch of the source) and as the parse result otherwise.  The slices kept
are the successfully decoded ones passing the validity filter. -/
def validSlices (files : List (Option DicomSlice)) : List DicomSlice :=
  (files.filterMap id).filter DicomSlice.valid

/-- Stable insertion of a slice into a list sorted ascending by
instanceNumber: the new element lands after all elements with a key less
than or equal to its own, matching the stable JavaScript
Array.prototype.sort with comparator a.instanceNumber - b.instanceNumber. -/
def insertSlice (x : DicomSlice) : List DicomSlice → List DicomSlice
  | [] => [x]
  | b :: t =>
    if b.instanceNumber ≤ x.instanceNumber then b :: insertSlice x t
    else x :: b :: t

/-- Stable sort ascending by instanceNumber (extensionally equal to the
stable comparator sort of the source). -/
def sortSlices (slices : List DicomSlice) : List DicomSlice :=
  slices.foldl (fun acc x => insertSlice x acc) []

/-- Filling the flat volume buffer: for each sorted slice, rows*columns
samples are copied; a read past the end of a short slice buffer yields
undefined which a typed array stores as 0; every store into the typed volume
buffer wraps modulo m (256 for Uint8Array, 65536 for Uint16Array). -/
def fillData (slices : List DicomSlice) (rows cols m : Nat) : List Nat :=
  slices.flatMap (fun s =>
    (List.range (rows * cols)).map (fun i => (sliceRaw s).getD i 0 % m))

def listMax : List Nat → Nat
  | [] => 0
  | v :: t => t.foldl Nat.max v

def listMin : List Nat → Nat
  | [] => 0
  | v :: t => t.foldl Nat.min v

/-- JavaScript Math.round on a nonnegative exact quotient num/den:
floor(num/den + 1/2), halves rounding up. -/
def jsRound (num den : Nat) : Nat :=
  (2 * num + den) / (2 * den)

/-- The 16-bit normalisation pass of processDicomFolder: global min and max,
range with the JavaScript fallback (maxVal - minVal || 1), then each voxel is
remapped to Math.round((v - min) / range * 255). -/
def normalizeData (vd : List Nat) : List Nat :=
  let maxVal := listMax vd
  let minVal := listMin vd
  let range := if maxVal - minVal = 0 then 1 else maxVal - minVal
  vd.map (fun v => jsRound ((v - minVal) * 255) range)

/-- DicomParser.processDicomFolder: filter, stable sort by instanceNumber,
take rows/columns and the 8/16-bit decision from the first sorted slice,
fill the flat buffer, normalise only when that first slice is 16-bit.
Returns none exactly where the source throws the no-valid-slices error. -/
def processDicomFolder (files : List (Option DicomSlice)) : Option Volume :=
  let slices := validSlices files
  if slices.isEmpty then none
  else
    let sorted := sortSlices slices
    let first := sorted.headD ⟨none, 0, 0, 0⟩
    let is16 := sliceIs16 first
    let vd := fillData sorted first.rows first.columns (if is16 then 65536 else 256)
    let vd2 := if is16 then normalizeData vd else vd
    some { data := vd2, dimensions := (first.columns, first.rows, sorted.length) }

/-! ## Sorting lemmas for the assembler -/

/-- Ascending instance-number order used by the sort comparator. -/
def instLE (a b : DicomSlice) : Prop :=
  a.instanceNumber ≤ b.instanceNumber

lemma insertSlice_perm (x : DicomSlice) (l : List DicomSlice) :
    (insertSlice x l).Perm (x :: l) := by
  induction l with
  | nil => simp [insertSlice]
  | cons b t ih =>
    simp only [insertSlice]
    split
    · exact (ih.cons b).trans (List.Perm.swap x b t)
    · exact List.Perm.refl _

lemma sortSlices_aux (l : List DicomSlice) :
    ∀ acc, (l.foldl (fun acc x => insertSlice x acc) acc).Perm (acc ++ l) := by
  induction l with
  | nil => simp
  | cons x t ih =>
    intro acc
    have h1 : (t.foldl (fun acc x => insertSlice x acc) (insertSlice x acc)).Perm
        (insertSlice x acc ++ t) := ih _
    have h2 : (insertSlice x acc ++ t).Perm ((x :: acc) ++ t) :=
      (insertSlice_perm x acc).append_right t
    have h3 : ((x :: acc) ++ t).Perm (acc ++ x :: t) :=
      (@List.perm_middle _ x acc t).symm
    simpa [List.foldl_cons] using (h1.trans h2).trans h3

lemma sortSlices_perm (l : List DicomSlice) : (sortSlices l).Perm l := by
  simpa [sortSlices] using sortSlices_aux l []

lemma insertSlice_pairwise (x : DicomSlice) (l : List DicomSlice)
    (h : l.Pairwise instLE) : (insertSlice x l).Pairwise instLE := by
  induction l with
  | nil => simp [insertSlice]
  | cons b t ih =>
    rcases List.pairwise_cons.mp h with ⟨hb, ht⟩
    simp only [insertSlice]
    split
    case isTrue hle =>
      refine List.pairwise_cons.mpr ⟨?_, ih ht⟩
      intro y hy
      rcases List.mem_cons.mp ((insertSlice_perm x t).mem_iff.mp hy) with rfl | hyt
      · exact hle
      · exact hb y hyt
    case isFalse hgt =>
      refine List.pairwise_cons.mpr ⟨?_, h⟩
      intro y hy
      rcases List.mem_cons.mp hy with rfl | hyt
      · exact Nat.le_of_not_le hgt
      · exact Nat.le_trans (Nat.le_of_not_le hgt) (hb y hyt)

lemma sortSlices_pairwise (l : List DicomSlice) : (sortSlices l).Pairwise instLE := by
  suffices h : ∀ acc, acc.Pairwise instLE →
      (l.foldl (fun acc x => insertSlice x acc) acc).Pairwise instLE by
    exact h [] (List.Pairwise.nil)
  induction l with
  | nil => intro acc hacc; simpa using hacc
  | cons x t ih =>
    intro acc hacc
    simpa [List.foldl_cons] using ih (insertSlice x acc) (insertSlice_pairwise x acc hacc)

/-- Two lists that are permutations of each other, both sorted by
instanceNumber, whose instance numbers are pairwise distinct, are equal. -/
lemma sorted_nodup_perm_eq (l₁ l₂ : List DicomSlice) (hp : l₁.Perm l₂)
    (h₁ : l₁.Pairwise instLE) (h₂ : l₂.Pairwise instLE)
    (hnd : (l₁.map DicomSlice.instanceNumber).Nodup) : l₁ = l₂ := by
  have hnd₂ : (l₂.map DicomSlice.instanceNumber).Nodup :=
    ((hp.map DicomSlice.instanceNumber).nodup_iff).mp hnd
  have hne₁ : l₁.Pairwise (fun a b => a.instanceNumber ≠ b.instanceNumber) :=
    List.pairwise_map.mp hnd
  have hne₂ : l₂.Pairwise (fun a b => a.instanceNumber ≠ b.instanceNumber) :=
    List.pairwise_map.mp hnd₂
  have hlt₁ : l₁.Pairwise (fun a b => a.instanceNumber < b.instanceNumber) :=
    (h₁.and hne₁).imp (fun h => Nat.lt_of_le_of_ne h.1 h.2)
  have hlt₂ : l₂.Pairwise (fun a b => a.instanceNumber < b.instanceNumber) :=
    (h₂.and hne₂).imp (fun h => Nat.lt_of_le_of_ne h.1 h.2)
  haveI : IsAntisymm DicomSlice (fun a b => a.instanceNumber < b.instanceNumber) :=
    ⟨fun a b hab hba => absurd (Nat.lt_trans hab hba) (Nat.lt_irrefl _)⟩
  exact List.eq_of_perm_of_sorted hp hlt₁ hlt₂

lemma sortSlices_eq_of_perm (l₁ l₂ : List DicomSlice) (hp : l₁.Perm l₂)
    (hnd : (l₁.map DicomSlice.instanceNumber).Nodup) :
    sortSlices l₁ = sortSlices l₂ := by
  refine sorted_nodup_perm_eq _ _ ?_ (sortSlices_pairwise l₁) (sortSlices_pairwise l₂) ?_
  · exact ((sortSlices_perm l₁).trans hp).trans (sortSlices_perm l₂).symm
  · exact (((sortSlices_perm l₁).map DicomSlice.instanceNumber).nodup_iff).mpr hnd

/-! ## Claim theorems for the Format Decoder and Volume Assembler -/

/-- C5: the decoder does not implement the documented long-form layout.  On
a well-formed long-form element (VR OB, reserved bytes 00 00, 4-byte length
2, value bytes 171 205) the source sees a nonzero 32-bit word after the VR,
skips 4 bytes, and reads the length from bytes that straddle the length
field and the value, yielding length 3450535936 with the value offset 14,
where the documented layout (modelled by specElementAt, matching the
unreachable duplicate branch of the source) yields length 2 with the value
beginning at offset 12. -/
theorem parseElementAt_long_form_diverges :
    parseElementAt dicomElemBytes 0 = (3450535936, 14) ∧
    specElementAt dicomElemBytes 0 = (2, 12) := by decide

/-- The two-slice 16-bit input of the C2 scenario: slice values 0,1000 and
500,2000 with instance numbers 1 and 2. -/
def c2files : List (Option DicomSlice) :=
  [some ⟨some (.u16 [0, 1000]), 1, 2, 1⟩, some ⟨some (.u16 [500, 2000]), 1, 2, 2⟩]

/-- C2 counterexample: the assembler does not produce the slice values
0,127,64,255 the claim states for the two-slice 16-bit scenario, because
JavaScript Math.round rounds 127.5 upward to 128, not to 127. -/
theorem c2_normalization_not_127 :
    (processDicomFolder c2files).map Volume.data ≠ some [0, 127, 64, 255] := by decide

/-- C2 amended: for the two-slice 16-bit input with pixel values 0,1000 and
500,2000, the one-pass global normalisation (min 0, max 2000, rounding half
up as Math.round does) produces the 8-bit slice values 0,128 and 64,255. -/
theorem c2_normalization_result :
    processDicomFolder c2files = some ⟨[0, 128, 64, 255], (2, 1, 2)⟩ := by decide

/-- Two slices with the same instance number 5 but different pixel data. -/
def tieSliceA : DicomSlice := ⟨some (.u8 [1]), 1, 1, 5⟩

def tieSliceB : DicomSlice := ⟨some (.u8 [2]), 1, 1, 5⟩

/-- C4 counterexample: assemble is not order-independent for every input.
With two valid slices sharing instanceNumber 5, the stable sort preserves
the encounter order of the permuted input, so the two assembly orders give
different Volumes. -/
theorem processDicomFolder_not_order_independent :
    processDicomFolder [some tieSliceA, some tieSliceB] ≠
      processDicomFolder [some tieSliceB, some tieSliceA] := by decide

/-- C4 amended: assemble is order-independent whenever the valid slices
carry pairwise distinct instance numbers: permuting the input file list
yields an identical result, because the sort ascending by instanceNumber
then has a unique sorted order. -/
theorem processDicomFolder_perm_invariant (files files' : List (Option DicomSlice))
    (hp : files.Perm files')
    (hnd : ((validSlices files).map DicomSlice.instanceNumber).Nodup) :
    processDicomFolder files = processDicomFolder files' := by
  have hv : (validSlices files).Perm (validSlices files') :=
    List.Perm.filter DicomSlice.valid (hp.filterMap id)
  have hs : sortSlices (validSlices files) = sortSlices (validSlices files') :=
    sortSlices_eq_of_perm _ _ hv hnd
  by_cases he : validSlices files = []
  · have he' : validSlices files' = [] := (he ▸ hv).symm.eq_nil
    simp [processDicomFolder, he, he']
  · have he' : validSlices files' ≠ [] := by
      intro h
      exact he (hv.trans (h ▸ List.Perm.refl _)).eq_nil
    have hb : (validSlices files).isEmpty = false := by
      simpa [List.isEmpty_iff] using he
    have hb' : (validSlices files').isEmpty = false := by
      simpa [List.isEmpty_iff] using he'
    simp only [processDicomFolder, hb, hb', Bool.false_eq_true, if_false, hs]

/-- C4 witness: two files with distinct instance numbers 2 and 1, swapped. -/
theorem processDicomFolder_perm_invariant_witness :
    (((validSlices [some ⟨some (.u8 [3]), 1, 1, 2⟩, some ⟨some (.u8 [4]), 1, 1, 1⟩]).map
      DicomSlice.instanceNumber).Nodup) ∧
    processDicomFolder [some ⟨some (.u8 [3]), 1, 1, 2⟩, some ⟨some (.u8 [4]), 1, 1, 1⟩] =
      processDicomFolder [some ⟨some (.u8 [4]), 1, 1, 1⟩, some ⟨some (.u8 [3]), 1, 1, 2⟩] :=
  ⟨by decide, processDicomFolder_perm_invariant _ _ (by decide) (by decide)⟩

/-- C8: the assembler fails (returns none, where the source throws the
no-valid-slices error) exactly when zero slices remain after filtering out
slices missing pixel data, rows or columns; otherwise a Volume is produced;
and one file whose decode failed (modelled as none) never affects the
assembly of the remaining files. -/
theorem processDicomFolder_error_contract (files : List (Option DicomSlice)) :
    (processDicomFolder files = none ↔ validSlices files = []) ∧
    processDicomFolder (none :: files) = processDicomFolder files := by
  constructor
  · by_cases he : validSlices files = []
    · simp [processDicomFolder, he]
    · have hb : (validSlices files).isEmpty = false := by
        simpa [List.isEmpty_iff] using he
      simp [processDicomFolder, hb, he]
  · have h : validSlices (none :: files) = validSlices files := by
      simp [validSlices]
    simp only [processDicomFolder, h]

/-- C9: whether the 16-bit normalisation runs is decided solely by the first
slice in sorted order.  When that slice holds an 8-bit buffer the assembled
buffer passes through with no normalisation (each store wrapping modulo 256
in the Uint8Array volume buffer) even if later slices carry 16-bit data;
when it holds a 16-bit buffer the whole assembled buffer is normalised with
the global min and max taken over all voxels as stored. -/
theorem processDicomFolder_first_slice_decides (files : List (Option DicomSlice))
    (hne : validSlices files ≠ []) :
    (sliceIs16 ((sortSlices (validSlices files)).headD ⟨none, 0, 0, 0⟩) = false →
      processDicomFolder files = some
        { data := fillData (sortSlices (validSlices files))
            ((sortSlices (validSlices files)).headD ⟨none, 0, 0, 0⟩).rows
            ((sortSlices (validSlices files)).headD ⟨none, 0, 0, 0⟩).columns 256,
          dimensions := (((sortSlices (validSlices files)).headD ⟨none, 0, 0, 0⟩).columns,
            ((sortSlices (validSlices files)).headD ⟨none, 0, 0, 0⟩).rows,
            (sortSlices (validSlices files)).length) }) ∧
    (sliceIs16 ((sortSlices (validSlices files)).headD ⟨none, 0, 0, 0⟩) = true →
      processDicomFolder files = some
        { data := normalizeData (fillData (sortSlices (validSlices files))
            ((sortSlices (validSlices files)).headD ⟨none, 0, 0, 0⟩).rows
            ((sortSlices (validSlices files)).headD ⟨none, 0, 0, 0⟩).columns 65536),
          dimensions := (((sortSlices (validSlices files)).headD ⟨none, 0, 0, 0⟩).columns,
            ((sortSlices (validSlices files)).headD ⟨none, 0, 0, 0⟩).rows,
            (sortSlices (validSlices files)).length) }) := by
  have hb : (validSlices files).isEmpty = false := by
    simpa [List.isEmpty_iff] using hne
  constructor
  · intro h16
    rw [List.headD_eq_head?_getD] at h16
    simp [processDicomFolder, hb, h16]
  · intro h16
    rw [List.headD_eq_head?_getD] at h16
    simp [processDicomFolder, hb, h16]

/-- C9 witness: a mixed series whose first sorted slice is 8-bit with value
10 while the second slice is 16-bit with value 1000; no normalisation runs
and 1000 wraps to 232 in the 8-bit volume buffer. -/
theorem processDicomFolder_first_slice_decides_witness :
    validSlices [some ⟨some (.u8 [10]), 1, 1, 1⟩, some ⟨some (.u16 [1000]), 1, 1, 2⟩] ≠ [] ∧
    processDicomFolder [some ⟨some (.u8 [10]), 1, 1, 1⟩, some ⟨some (.u16 [1000]), 1, 1, 2⟩] =
      some ⟨[10, 232], (1, 1, 2)⟩ :=
  ⟨by decide,
    (processDicomFolder_first_slice_decides _ (by decide)).1 (by decide)⟩

/-! ## Volume Atlas Packer (loadVolume of src/volumerenderer.js lines 303-337
and src/unnamed/part_000 lines 338-368) -/

/-- slicesPerRow = Math.ceil(Math.sqrt(depth)): the least k with k * k at
least depth (Math.sqrt is correctly rounded, so the JavaScript ceiling
agrees with the exact one for every realistic depth).  Written as a search
so that it evaluates by kernel reduction; k = depth always satisfies the
test, so the fallback is never taken. -/
def tileCountPerRow (d : Nat) : Nat :=
  ((List.range (d + 1)).find? (fun k => d ≤ k * k)).getD d

/-- rows = Math.ceil(depth / slicesPerRow). -/
def tileRowsOf (d : Nat) : Nat :=
  if d = 0 then 0 else (d + tileCountPerRow d - 1) / tileCountPerRow d

/-- texWidth = slicesPerRow * width. -/
def texWidthOf (w d : Nat) : Nat := tileCountPerRow d * w

/-- texHeight = rows * height. -/
def texHeightOf (h d : Nat) : Nat := tileRowsOf d * h

/-- Destination flat atlas index of voxel (x, y, z):
texY * texWidth + texX with texX = sliceCol * width + x,
texY = sliceRow * height + y, sliceCol = z % slicesPerRow,
sliceRow = floor(z / slicesPerRow). -/
def texIndexOf (w h d z y x : Nat) : Nat :=
  ((z / tileCountPerRow d) * h + y) * texWidthOf w d +
    ((z % tileCountPerRow d) * w + x)

/-- Source flat volume index of voxel (x, y, z):
z * width * height + y * width + x. -/
def volIndexOf (w h z y x : Nat) : Nat :=
  z * w * h + y * w + x

/-- The sequence of stores performed by the packing loop, in source order
(z outer, then y, then x), each carrying the stored value
Math.max(0, Math.min(255, Math.round(v))), which on natural-number volume
data is min 255 v. -/
def packWrites (w h d : Nat) (data : List Nat) : List (Nat × Nat) :=
  (List.range d).flatMap (fun z =>
    (List.range h).flatMap (fun y =>
      (List.range w).map (fun x =>
        (texIndexOf w h d z y x, min 255 (data.getD (volIndexOf w h z y x) 0)))))

/-- VolumeRenderer.loadVolume / VolumeRaycaster.loadVolume texture packing:
a zero-initialised Uint8Array of texWidth * texHeight cells receives the
stores of the packing loop. -/
def loadVolume (vol : Volume) : List Nat :=
  let w := vol.dimensions.1
  let h := vol.dimensions.2.1
  let d := vol.dimensions.2.2
  (packWrites w h d vol.data).foldl (fun a p => a.set p.1 p.2)
    (List.replicate (texWidthOf w d * texHeightOf h d) 0)

/-! ## Last-write lemmas for sequences of list stores -/

lemma foldl_set_length (ws : List (Nat × Nat)) (a : List Nat) :
    (ws.foldl (fun a p => a.set p.1 p.2) a).length = a.length := by
  induction ws generalizing a with
  | nil => rfl
  | cons p t ih => simp [List.foldl_cons, ih, List.length_set]

lemma foldl_set_not_written (ws : List (Nat × Nat)) (a : List Nat) (i : Nat)
    (h : ∀ p ∈ ws, p.1 ≠ i) :
    (ws.foldl (fun a p => a.set p.1 p.2) a).getD i 0 = a.getD i 0 := by
  induction ws generalizing a with
  | nil => rfl
  | cons p t ih =>
    rw [List.foldl_cons, ih _ (fun q hq => h q (List.mem_cons_of_mem _ hq))]
    rw [List.getD_eq_getElem?_getD, List.getD_eq_getElem?_getD,
      List.getElem?_set_ne (h p (List.mem_cons_self _ _))]

lemma foldl_set_unique_write (ws : List (Nat × Nat)) (a : List Nat) (i v : Nat)
    (hlen : i < a.length) (hmem : (i, v) ∈ ws)
    (huniq : ∀ p ∈ ws, p.1 = i → p.2 = v) :
    (ws.foldl (fun a p => a.set p.1 p.2) a).getD i 0 = v := by
  induction ws generalizing a with
  | nil => cases hmem
  | cons p t ih =>
    by_cases hm : (i, v) ∈ t
    · rw [List.foldl_cons]
      exact ih (a.set p.1 p.2) (by rw [List.length_set]; exact hlen) hm
        (fun q hq hqi => huniq q (List.mem_cons_of_mem _ hq) hqi)
    · have hpe : p = (i, v) := by
        rcases List.mem_cons.mp hmem with he | ht
        · exact he.symm
        · exact absurd ht hm
      have hrest : ∀ q ∈ t, q.1 ≠ i := by
        intro q hq hqi
        have hq2 : q.2 = v := huniq q (List.mem_cons_of_mem _ hq) hqi
        exact hm (by rw [← hqi, ← hq2]; exact hq)
      rw [List.foldl_cons, foldl_set_not_written t _ i hrest, hpe]
      rw [List.getD_eq_getElem?_getD, List.getElem?_set_self hlen]
      rfl

lemma mem_packWrites {w h d : Nat} {data : List Nat} {p : Nat × Nat} :
    p ∈ packWrites w h d data ↔
      ∃ z, z < d ∧ ∃ y, y < h ∧ ∃ x, x < w ∧
        p = (texIndexOf w h d z y x, min 255 (data.getD (volIndexOf w h z y x) 0)) := by
  simp only [packWrites, List.mem_flatMap, List.mem_map, List.mem_range]
  constructor
  · rintro ⟨z, hz, y, hy, x, hx, hp⟩
    exact ⟨z, hz, y, hy, x, hx, hp.symm⟩
  · rintro ⟨z, hz, y, hy, x, hx, hp⟩
    exact ⟨z, hz, y, hy, x, hx, hp.symm⟩

/-! ## Mixed-radix arithmetic of the tiling -/

lemma div_mod_of_add_mul {q r n : Nat} (h : r < n) :
    (r + q * n) / n = q ∧ (r + q * n) % n = r := by
  have hn : 0 < n := Nat.lt_of_le_of_lt (Nat.zero_le r) h
  constructor
  · rw [Nat.add_mul_div_right _ _ hn, Nat.div_eq_of_lt h, Nat.zero_add]
  · rw [Nat.add_mul_mod_self_right, Nat.mod_eq_of_lt h]

lemma tileCountPerRow_pos {d : Nat} (hd : 0 < d) : 0 < tileCountPerRow d := by
  rw [tileCountPerRow]
  cases hf : (List.range (d + 1)).find? (fun k => d ≤ k * k) with
  | none => simpa using hd
  | some k =>
    have hk : d ≤ k * k := by simpa using List.find?_some hf
    cases k with
    | zero => omega
    | succ k => exact Nat.succ_pos _

lemma le_tcr_mul_tileRows {d : Nat} (hd : 0 < d) :
    d ≤ tileCountPerRow d * tileRowsOf d := by
  have ht := tileCountPerRow_pos hd
  rw [tileRowsOf, if_neg (Nat.pos_iff_ne_zero.mp hd)]
  have h1 := Nat.div_add_mod (d + tileCountPerRow d - 1) (tileCountPerRow d)
  have h2 := Nat.mod_lt (d + tileCountPerRow d - 1) ht
  omega

/-- A column-offset pair below its radix bounds stays below the tile width. -/
lemma col_offset_lt {c x t w : Nat} (hc : c < t) (hx : x < w) :
    c * w + x < t * w := by
  have h1 : c * w + x < (c + 1) * w := by rw [Nat.succ_mul]; omega
  exact Nat.lt_of_lt_of_le h1 (Nat.mul_le_mul_right w hc)

lemma texIndexOf_div_mod {w h d z y x : Nat} (hz : z < d) (hy : y < h) (hx : x < w) :
    texIndexOf w h d z y x / texWidthOf w d = (z / tileCountPerRow d) * h + y ∧
    texIndexOf w h d z y x % texWidthOf w d = (z % tileCountPerRow d) * w + x := by
  have ht : 0 < tileCountPerRow d := tileCountPerRow_pos (Nat.lt_of_le_of_lt (Nat.zero_le z) hz)
  have hB : (z % tileCountPerRow d) * w + x < texWidthOf w d :=
    col_offset_lt (Nat.mod_lt z ht) hx
  rw [texIndexOf, Nat.add_comm]
  exact div_mod_of_add_mul hB

/-- Decoding the atlas index of a voxel recovers the voxel coordinates. -/
lemma texIndexOf_decode {w h d z y x : Nat} (hz : z < d) (hy : y < h) (hx : x < w) :
    (texIndexOf w h d z y x / texWidthOf w d / h) * tileCountPerRow d +
      (texIndexOf w h d z y x % texWidthOf w d) / w = z ∧
    (texIndexOf w h d z y x / texWidthOf w d) % h = y ∧
    (texIndexOf w h d z y x % texWidthOf w d) % w = x := by
  obtain ⟨h1, h2⟩ := texIndexOf_div_mod hz hy hx
  rw [h1, h2]
  have hdm1 : ((z / tileCountPerRow d) * h + y) / h = z / tileCountPerRow d := by
    rw [Nat.add_comm]
    exact (div_mod_of_add_mul hy).1
  have hdm2 : ((z / tileCountPerRow d) * h + y) % h = y := by
    rw [Nat.add_comm]
    exact (div_mod_of_add_mul hy).2
  have hdm3 : ((z % tileCountPerRow d) * w + x) / w = z % tileCountPerRow d := by
    rw [Nat.add_comm]
    exact (div_mod_of_add_mul hx).1
  have hdm4 : ((z % tileCountPerRow d) * w + x) % w = x := by
    rw [Nat.add_comm]
    exact (div_mod_of_add_mul hx).2
  refine ⟨?_, hdm2, hdm4⟩
  rw [hdm1, hdm3, Nat.mul_comm (z / tileCountPerRow d) (tileCountPerRow d)]
  exact Nat.div_add_mod z (tileCountPerRow d)

lemma tileRow_lt {d z : Nat} (hz : z < d) : z / tileCountPerRow d < tileRowsOf d := by
  have hd : 0 < d := Nat.lt_of_le_of_lt (Nat.zero_le z) hz
  have hlt : z < tileCountPerRow d * tileRowsOf d :=
    Nat.lt_of_lt_of_le hz (le_tcr_mul_tileRows hd)
  exact Nat.div_lt_of_lt_mul hlt

lemma texIndexOf_lt {w h d z y x : Nat} (hz : z < d) (hy : y < h) (hx : x < w) :
    texIndexOf w h d z y x < texWidthOf w d * texHeightOf h d := by
  have ht := tileCountPerRow_pos (Nat.lt_of_le_of_lt (Nat.zero_le z) hz)
  have hA : (z / tileCountPerRow d) * h + y < texHeightOf h d :=
    col_offset_lt (tileRow_lt hz) hy
  have hB : (z % tileCountPerRow d) * w + x < texWidthOf w d :=
    col_offset_lt (Nat.mod_lt z ht) hx
  rw [texIndexOf]
  have h1 : ((z / tileCountPerRow d) * h + y) * texWidthOf w d +
      ((z % tileCountPerRow d) * w + x) <
      ((z / tileCountPerRow d) * h + y + 1) * texWidthOf w d := by
    rw [Nat.succ_mul]; omega
  have h2 : ((z / tileCountPerRow d) * h + y + 1) * texWidthOf w d ≤
      texHeightOf h d * texWidthOf w d :=
    Nat.mul_le_mul_right _ hA
  rw [Nat.mul_comm (texWidthOf w d) (texHeightOf h d)]
  exact Nat.lt_of_lt_of_le h1 h2

lemma volIndexOf_lt {w h d z y x : Nat} (hz : z < d) (hy : y < h) (hx : x < w) :
    volIndexOf w h z y x < w * h * d := by
  have f1 : y * w + x < h * w := col_offset_lt hy hx
  have f2 : (z + 1) * (w * h) ≤ d * (w * h) :=
    Nat.mul_le_mul_right _ (Nat.succ_le_of_lt hz)
  rw [Nat.succ_mul] at f2
  have e1 : z * w * h = z * (w * h) := Nat.mul_assoc z w h
  have e2 : w * h * d = d * (w * h) := Nat.mul_comm (w * h) d
  have e3 : h * w = w * h := Nat.mul_comm h w
  rw [volIndexOf]
  omega

lemma texIndexOf_inj {w h d z y x z2 y2 x2 : Nat}
    (hz : z < d) (hy : y < h) (hx : x < w)
    (hz2 : z2 < d) (hy2 : y2 < h) (hx2 : x2 < w)
    (heq : texIndexOf w h d z y x = texIndexOf w h d z2 y2 x2) :
    z = z2 ∧ y = y2 ∧ x = x2 := by
  obtain ⟨a1, a2, a3⟩ := texIndexOf_decode hz hy hx
  obtain ⟨b1, b2, b3⟩ := texIndexOf_decode hz2 hy2 hx2
  rw [heq] at a1 a2 a3
  exact ⟨by omega, by omega, by omega⟩

/-- The packed atlas holds, at the destination index of voxel (x, y, z), the
clamped value of that voxel. -/
lemma loadVolume_at_voxel {w h d : Nat} {data : List Nat} {z y x : Nat}
    (hz : z < d) (hy : y < h) (hx : x < w) :
    (loadVolume ⟨data, (w, h, d)⟩).getD (texIndexOf w h d z y x) 0 =
      min 255 (data.getD (volIndexOf w h z y x) 0) := by
  have hLV : loadVolume ⟨data, (w, h, d)⟩ =
      (packWrites w h d data).foldl (fun a p => a.set p.1 p.2)
        (List.replicate (texWidthOf w d * texHeightOf h d) 0) := rfl
  rw [hLV]
  apply foldl_set_unique_write
  · rw [List.length_replicate]
    exact texIndexOf_lt hz hy hx
  · exact mem_packWrites.mpr ⟨z, hz, y, hy, x, hx, rfl⟩
  · intro p hp hpi
    obtain ⟨z2, hz2, y2, hy2, x2, hx2, hpe⟩ := mem_packWrites.mp hp
    subst hpe
    obtain ⟨rfl, rfl, rfl⟩ := texIndexOf_inj hz2 hy2 hx2 hz hy hx hpi
    rfl

/-- C1: the atlas packing is a bijective tiling.  For every volume with
positive dimensions whose data buffer has one 8-bit sample per voxel, the
packing loop stores voxel (x, y, z) at exactly the atlas pixel
(tileCol * width + x, tileRow * height + y) with tileCol = z mod
tileCountPerRow and tileRow = z div tileCountPerRow, and conversely every
atlas pixel (tx, ty) whose decoded slice index lies below depth recovers
exactly the value of the voxel it came from. -/
theorem loadVolume_tiling (w h d : Nat) (data : List Nat)
    (hw : 0 < w) (hh : 0 < h) (hd : 0 < d)
    (hlen : data.length = w * h * d)
    (hval : ∀ v ∈ data, v ≤ 255) :
    (∀ z y x, z < d → y < h → x < w →
      (loadVolume ⟨data, (w, h, d)⟩).getD (texIndexOf w h d z y x) 0 =
        data.getD (volIndexOf w h z y x) 0) ∧
    (∀ ty tx, ty < texHeightOf h d → tx < texWidthOf w d →
      (ty / h) * tileCountPerRow d + tx / w < d →
      (loadVolume ⟨data, (w, h, d)⟩).getD (ty * texWidthOf w d + tx) 0 =
        data.getD
          (volIndexOf w h ((ty / h) * tileCountPerRow d + tx / w) (ty % h) (tx % w))
          0) := by
  have hfwd : ∀ z y x, z < d → y < h → x < w →
      (loadVolume ⟨data, (w, h, d)⟩).getD (texIndexOf w h d z y x) 0 =
        data.getD (volIndexOf w h z y x) 0 := by
    intro z y x hz hy hx
    rw [loadVolume_at_voxel hz hy hx]
    apply Nat.min_eq_right
    have hlt : volIndexOf w h z y x < data.length := by
      rw [hlen]; exact volIndexOf_lt hz hy hx
    rw [List.getD_eq_getElem _ _ hlt]
    exact hval _ (List.getElem_mem hlt)
  refine ⟨hfwd, ?_⟩
  intro ty tx hty htx hzlt
  have hxw : tx % w < w := Nat.mod_lt tx hw
  have hyh : ty % h < h := Nat.mod_lt ty hh
  have htxw : tx / w < tileCountPerRow d := by
    apply Nat.div_lt_of_lt_mul
    rw [Nat.mul_comm]
    exact htx
  have henc : texIndexOf w h d ((ty / h) * tileCountPerRow d + tx / w) (ty % h) (tx % w) =
      ty * texWidthOf w d + tx := by
    rw [texIndexOf]
    have hz1 : ((ty / h) * tileCountPerRow d + tx / w) / tileCountPerRow d = ty / h := by
      rw [Nat.add_comm]
      exact (div_mod_of_add_mul htxw).1
    have hz2 : ((ty / h) * tileCountPerRow d + tx / w) % tileCountPerRow d = tx / w := by
      rw [Nat.add_comm]
      exact (div_mod_of_add_mul htxw).2
    rw [hz1, hz2]
    have e1 : (ty / h) * h + ty % h = ty := by
      rw [Nat.mul_comm]
      exact Nat.div_add_mod ty h
    have e2 : (tx / w) * w + tx % w = tx := by
      rw [Nat.mul_comm]
      exact Nat.div_add_mod tx w
    rw [e1, e2]
  rw [← henc]
  exact hfwd _ _ _ hzlt hyh hxw

/-- C1 witness: a 1 by 1 by 2 volume with samples 7 and 9; the voxel at
z = 1 lands at its tiled atlas pixel with its value intact, and decoding
atlas pixel (ty, tx) = (0, 1) recovers the slice-1 voxel value. -/
theorem loadVolume_tiling_witness :
    (0 < 1 ∧ (∀ v ∈ [7, 9], v ≤ 255)) ∧
    (loadVolume ⟨[7, 9], (1, 1, 2)⟩).getD (texIndexOf 1 1 2 1 0 0) 0 =
      List.getD [7, 9] (volIndexOf 1 1 1 0 0) 0 ∧
    (loadVolume ⟨[7, 9], (1, 1, 2)⟩).getD (0 * texWidthOf 1 2 + 1) 0 =
      List.getD [7, 9]
        (volIndexOf 1 1 ((0 / 1) * tileCountPerRow 2 + 1 / 1) (0 % 1) (1 % 1)) 0 :=
  ⟨⟨by decide, by decide⟩,
    (loadVolume_tiling 1 1 2 [7, 9] (by decide) (by decide) (by decide) (by decide)
      (by decide)).1 1 0 0 (by decide) (by decide) (by decide),
    (loadVolume_tiling 1 1 2 [7, 9] (by decide) (by decide) (by decide) (by decide)
      (by decide)).2 0 1 (by decide) (by decide) (by decide)⟩

/-- C10: every cell of the packed atlas lies in the byte range, and the
cells of the padding tiles (those whose decoded slice index reaches depth)
are never written by the packing loop and hold 0, for arbitrary volume
data. -/
theorem loadVolume_byte_range_and_padding (w h d : Nat) (data : List Nat)
    (hw : 0 < w) (hh : 0 < h) (hd : 0 < d) :
    ∀ i, i < texWidthOf w d * texHeightOf h d →
      (loadVolume ⟨data, (w, h, d)⟩).getD i 0 ≤ 255 ∧
      (d ≤ (i / texWidthOf w d / h) * tileCountPerRow d + (i % texWidthOf w d) / w →
        (loadVolume ⟨data, (w, h, d)⟩).getD i 0 = 0) := by
  intro i hi
  have hLV : loadVolume ⟨data, (w, h, d)⟩ =
      (packWrites w h d data).foldl (fun a p => a.set p.1 p.2)
        (List.replicate (texWidthOf w d * texHeightOf h d) 0) := rfl
  by_cases hex : ∃ p ∈ packWrites w h d data, p.1 = i
  · obtain ⟨p, hp, hpi⟩ := hex
    obtain ⟨z, hz, y, hy, x, hx, hpe⟩ := mem_packWrites.mp hp
    subst hpe
    simp only at hpi
    subst hpi
    constructor
    · rw [loadVolume_at_voxel hz hy hx]
      exact Nat.min_le_left _ _
    · intro hpad
      obtain ⟨a1, _, _⟩ := texIndexOf_decode hz hy hx
      omega
  · push_neg at hex
    have h0 : (loadVolume ⟨data, (w, h, d)⟩).getD i 0 =
        (List.replicate (texWidthOf w d * texHeightOf h d) (0 : Nat)).getD i 0 := by
      rw [hLV]
      exact foldl_set_not_written _ _ _ hex
    have h1 : (List.replicate (texWidthOf w d * texHeightOf h d) (0 : Nat)).getD i 0 = 0 := by
      rw [List.getD_eq_getElem?_getD, List.getElem?_replicate]
      split <;> rfl
    rw [h0, h1]
    exact ⟨Nat.zero_le _, fun _ => rfl⟩

/-- C10 witness: a depth-3 volume packs into a 2 by 2 tile grid; atlas cell
3 decodes to tile index 3, a padding tile, so it is below 256 and holds 0. -/
theorem loadVolume_byte_range_and_padding_witness :
    3 < texWidthOf 1 3 * texHeightOf 1 3 ∧
    ((loadVolume ⟨[400, 5, 6], (1, 1, 3)⟩).getD 3 0 ≤ 255 ∧
      (3 ≤ (3 / texWidthOf 1 3 / 1) * tileCountPerRow 3 + (3 % texWidthOf 1 3) / 1 →
        (loadVolume ⟨[400, 5, 6], (1, 1, 3)⟩).getD 3 0 = 0)) :=
  ⟨by decide,
    loadVolume_byte_range_and_padding 1 1 3 [400, 5, 6] (by decide) (by decide)
      (by decide) 3 (by decide)⟩

/-! ## Volume Sampler (sampleVolume of the fragment shader,
src/unnamed/part_000 lines 71-110 and src/volumerenderer.js lines 79-118).
GLSL float arithmetic is modelled over the exact rationals. -/

/-- GLSL clamp(x, lo, hi) = min(max(x, lo), hi). -/
def ratClamp (x lo hi : ℚ) : ℚ := min (max x lo) hi

/-- GLSL floor as a rational. -/
def ratFloorQ (q : ℚ) : ℚ := (⌊q⌋ : ℚ)

/-- GLSL mod(x, y) = x - y * floor(x / y). -/
def glslMod (x y : ℚ) : ℚ := x - y * ratFloorQ (x / y)

/-- Modelled from the spec: the 2D texture lookup.  The hardware bilinear
filter of the LINEAR-filtered texture is not part of the source; the spec
(section 4.4) describes the 2D lookup as reading the atlas pixel for (x, y)
within the tile, modelled here as the texel containing the uv coordinate.
The atlas is a function from flat texel index (row-major, stride texW) to
sample value. -/
def tex2D (A : Nat → ℚ) (texW texH : Nat) (u v : ℚ) : ℚ :=
  A ((⌊v * (texH : ℚ)⌋).toNat * texW + (⌊u * (texW : ℚ)⌋).toNat)

/-- sampleVolume of the fragment shader: clamp the position into
[0.001, 0.999] per axis, split pos.z * u_slices into slice index and
fraction, locate the tile of the slice in the atlas, read value1 there, and
when the fraction is positive and the slice is not the last also read the
next tile at the same in-tile offset and mix the two values by the
fraction. -/
def sampleVolume (A : Nat → ℚ) (texW texH slices volW volH : Nat)
    (pos : ℚ × ℚ × ℚ) : ℚ :=
  let px := ratClamp pos.1 (1/1000) (999/1000)
  let py := ratClamp pos.2.1 (1/1000) (999/1000)
  let pz := ratClamp pos.2.2 (1/1000) (999/1000)
  let sliceF := pz * (slices : ℚ)
  let sliceIdx := ratFloorQ sliceF
  let sliceFrac := sliceF - sliceIdx
  let slicesPerRow : ℚ := (texW : ℚ) / (volW : ℚ)
  let row := ratFloorQ (sliceIdx / slicesPerRow)
  let col := glslMod sliceIdx slicesPerRow
  let ssx : ℚ := (volW : ℚ) / (texW : ℚ)
  let ssy : ℚ := (volH : ℚ) / (texH : ℚ)
  let ox := col * ssx
  let oy := row * ssy
  let u := px * ssx + ox
  let v := py * ssy + oy
  let value1 := tex2D A texW texH u v
  if sliceFrac > 0 ∧ sliceIdx < (slices : ℚ) - 1 then
    let nextIdx := sliceIdx + 1
    let nextRow := ratFloorQ (nextIdx / slicesPerRow)
    let nextCol := glslMod nextIdx slicesPerRow
    let nu := u - ox + nextCol * ssx
    let nv := v - oy + nextRow * ssy
    let value2 := tex2D A texW texH nu nv
    value1 * (1 - sliceFrac) + value2 * sliceFrac
  else
    value1

/-! ## Ray Integrator (main of the fragment shader,
src/unnamed/part_000 lines 112-223) -/

/-- A 3-component GLSL vector over the rationals. -/
structure V3 where
  x : ℚ
  y : ℚ
  z : ℚ

/-- A 4-component GLSL colour over the rationals. -/
structure V4 where
  r : ℚ
  g : ℚ
  b : ℚ
  a : ℚ

/-- Slab-method entry distance: per axis take the smaller of the two plane
distances, then the largest over the axes. -/
def slabTNear (ro rd : V3) : ℚ :=
  max (max (min ((-(1:ℚ)/2 - ro.x) / rd.x) (((1:ℚ)/2 - ro.x) / rd.x))
           (min ((-(1:ℚ)/2 - ro.y) / rd.y) (((1:ℚ)/2 - ro.y) / rd.y)))
      (min ((-(1:ℚ)/2 - ro.z) / rd.z) (((1:ℚ)/2 - ro.z) / rd.z))

/-- Slab-method exit distance: per axis take the larger of the two plane
distances, then the smallest over the axes. -/
def slabTFar (ro rd : V3) : ℚ :=
  min (min (max ((-(1:ℚ)/2 - ro.x) / rd.x) (((1:ℚ)/2 - ro.x) / rd.x))
           (max ((-(1:ℚ)/2 - ro.y) / rd.y) (((1:ℚ)/2 - ro.y) / rd.y)))
      (max ((-(1:ℚ)/2 - ro.z) / rd.z) (((1:ℚ)/2 - ro.z) / rd.z))

/-- The ray-marching loop of main, instrumented with the number of
sampleVolume invocations.  Each iteration breaks when the marching
parameter reaches tFar or the accumulated alpha reaches 0.95, otherwise
samples the density (1 sampler call), windows and clamps it, and when the
windowed density passes the threshold takes the six gradient samples,
shades with the lighting oracle (the GLSL normalize and dot are irrational,
so the resulting scalar lighting of step i is supplied as light i), builds
the premultiplied colour and composites front to back; the marching
parameter advances by the fixed step 0.01 either way. -/
def marchLoop (A : Nat → ℚ) (texW texH slices volW volH : Nat)
    (threshold opacity windowLevel windowWidth : ℚ) (light : Nat → ℚ)
    (ro rd : V3) (tF : ℚ) (fuel : Nat) (tN : ℚ) (accum : V4)
    (count i : Nat) : V4 × Nat :=
  match fuel with
  | 0 => (accum, count)
  | fuel + 1 =>
    if tN ≥ tF ∨ accum.a ≥ 95/100 then (accum, count)
    else
      let cx := ro.x + rd.x * tN
      let cy := ro.y + rd.y * tN
      let cz := ro.z + rd.z * tN
      let density := sampleVolume A texW texH slices volW volH
        (cx + 1/2, cy + 1/2, cz + 1/2)
      let count2 := count + 1
      let windowMin := windowLevel - windowWidth * (1/2)
      let windowMax := windowLevel + windowWidth * (1/2)
      let nd := ratClamp ((density - windowMin) / (windowMax - windowMin)) 0 1
      if nd > threshold / 255 then
        let count3 := count2 + 6
        let lighting := light i
        let va := nd * opacity
        let pr := (nd * lighting) * va
        let accum2 : V4 :=
          ⟨accum.r + (1 - accum.a) * pr, accum.g + (1 - accum.a) * pr,
            accum.b + (1 - accum.a) * pr, accum.a + (1 - accum.a) * va⟩
        marchLoop A texW texH slices volW volH threshold opacity windowLevel
          windowWidth light ro rd tF fuel (tN + 1/100) accum2 count3 (i + 1)
      else
        marchLoop A texW texH slices volW volH threshold opacity windowLevel
          windowWidth light ro rd tF fuel (tN + 1/100) accum count2 (i + 1)

/-- main of the fragment shader for one pixel, taking the already rotated
ray origin and direction (the rotation matrices are built from sines and
cosines of the camera angles, which are irrational; the claim quantifies
over every pixel ray, so the ray itself is the input).  When no volume is
loaded (u_slices not positive) the shader paints a procedural pattern built
from sines, supplied as the patternColor parameter.  Otherwise: slab
intersection; on a miss (tNear greater than tFar, or tFar negative) output
transparent black with zero sampler calls; on a hit clamp tNear to 0, run
the 200-step marching loop from a zero accumulator, and clamp the final
colour to [0, 1].  Returns the pixel colour and the number of sampleVolume
invocations. -/
def fragmentMain (A : Nat → ℚ) (texW texH slices volW volH : Nat)
    (threshold opacity windowLevel windowWidth : ℚ) (light : Nat → ℚ)
    (patternColor : V4) (ro rd : V3) : V4 × Nat :=
  if (slices : ℚ) ≤ 0 then (patternColor, 0)
  else
    let tN := slabTNear ro rd
    let tF := slabTFar ro rd
    if tN > tF ∨ tF < 0 then (⟨0, 0, 0, 0⟩, 0)
    else
      let res := marchLoop A texW texH slices volW volH threshold opacity
        windowLevel windowWidth light ro rd tF 200 (max 0 tN) ⟨0, 0, 0, 0⟩ 0 0
      (⟨ratClamp res.1.r 0 1, ratClamp res.1.g 0 1,
        ratClamp res.1.b 0 1, ratClamp res.1.a 0 1⟩, res.2)

/-! ## Rational floor helpers -/

lemma floor_natCast_div (a b : Nat) : ⌊((a : ℚ)) / ((b : ℚ))⌋ = ((a / b : Nat) : ℤ) := by
  rcases Nat.eq_zero_or_pos b with hb | hb
  · subst hb; simp
  · have hbq : (0 : ℚ) < (b : ℚ) := by exact_mod_cast hb
    rw [Int.floor_eq_iff]
    constructor
    · rw [le_div_iff hbq]
      exact_mod_cast Nat.div_mul_le_self a b
    · rw [div_lt_iff hbq]
      have h1 := Nat.div_add_mod a b
      have h2 := Nat.mod_lt a hb
      have h3 : a < (a / b + 1) * b := by
        rw [Nat.succ_mul, Nat.mul_comm]
        omega
      exact_mod_cast h3

lemma glslMod_natCast (a b : Nat) : glslMod (a : ℚ) (b : ℚ) = ((a % b : Nat) : ℚ) := by
  rcases Nat.eq_zero_or_pos b with hb | hb
  · subst hb; simp [glslMod, ratFloorQ]
  · rw [glslMod, ratFloorQ, floor_natCast_div]
    have h2 : (b : ℚ) * ((a / b : Nat) : ℚ) + ((a % b : Nat) : ℚ) = (a : ℚ) := by
      exact_mod_cast Nat.div_add_mod a b
    rw [Int.cast_natCast]
    linarith

lemma ratClamp_unit_mem (x : ℚ) :
    1/1000 ≤ ratClamp x (1/1000) (999/1000) ∧ ratClamp x (1/1000) (999/1000) ≤ 999/1000 := by
  constructor
  · exact le_min (le_max_right _ _) (by norm_num)
  · exact min_le_right _ _

lemma ratClamp01_mem (x : ℚ) : 0 ≤ ratClamp x 0 1 ∧ ratClamp x 0 1 ≤ 1 := by
  constructor
  · exact le_min (le_max_right _ _) (by norm_num)
  · exact min_le_right _ _

lemma floor_unit_mul_toNat_lt {q : ℚ} {n : Nat} (hn : 0 < n) (h0 : 0 ≤ q) (h1 : q < 1) :
    (⌊q * (n : ℚ)⌋).toNat < n := by
  have hlt : ⌊q * (n : ℚ)⌋ < (n : ℤ) := by
    rw [Int.floor_lt]
    push_cast
    calc q * (n : ℚ) < 1 * (n : ℚ) := by
          apply mul_lt_mul_of_pos_right h1
          exact_mod_cast hn
      _ = (n : ℚ) := one_mul _
  omega

lemma floor_unit_mul_nonneg {q : ℚ} {n : Nat} (h0 : 0 ≤ q) :
    0 ≤ ⌊q * (n : ℚ)⌋ :=
  Int.floor_nonneg.mpr (mul_nonneg h0 (by positivity))

lemma tileRowsOf_pos {d : Nat} (hd : 0 < d) : 0 < tileRowsOf d := by
  have ht := tileCountPerRow_pos hd
  rw [tileRowsOf, if_neg (Nat.pos_iff_ne_zero.mp hd)]
  apply Nat.div_pos
  · omega
  · exact ht

lemma tileCountPerRow_two_le {d : Nat} (hd : 2 ≤ d) : 2 ≤ tileCountPerRow d := by
  rw [tileCountPerRow]
  cases hf : (List.range (d + 1)).find? (fun k => d ≤ k * k) with
  | none => simpa using hd
  | some k =>
    have hk : d ≤ k * k := by simpa using List.find?_some hf
    match k with
    | 0 => omega
    | 1 => omega
    | (k + 2) => simpa using Nat.le_add_left 2 k

/-! ## Claim theorems for the Ray Integrator -/

/-- C6: for every pixel ray (with no axis-parallel direction component, so
that the rational model of the GLSL division is exact) whose slab
intersection yields tNear greater than tFar or tFar negative, the shader
emits fully transparent black and performs no volume sampling at all. -/
theorem fragmentMain_miss_transparent (A : Nat → ℚ) (texW texH slices volW volH : Nat)
    (threshold opacity windowLevel windowWidth : ℚ) (light : Nat → ℚ)
    (patternColor : V4) (ro rd : V3)
    (hdx : rd.x ≠ 0) (hdy : rd.y ≠ 0) (hdz : rd.z ≠ 0) (hs : 0 < slices)
    (hmiss : slabTNear ro rd > slabTFar ro rd ∨ slabTFar ro rd < 0) :
    fragmentMain A texW texH slices volW volH threshold opacity windowLevel
      windowWidth light patternColor ro rd = (⟨0, 0, 0, 0⟩, 0) := by
  have hns : ¬ ((slices : ℚ) ≤ 0) := by
    push_neg
    exact_mod_cast hs
  simp only [fragmentMain]
  rw [if_neg hns, if_pos hmiss]

/-- C6 witness: the ray from origin (10, 0, 0) with direction (1, 1, 1)
misses the unit box; its pixel is transparent black with zero sampler
calls. -/
theorem fragmentMain_miss_transparent_witness :
    (slabTNear ⟨10, 0, 0⟩ ⟨1, 1, 1⟩ > slabTFar ⟨10, 0, 0⟩ ⟨1, 1, 1⟩ ∨
      slabTFar ⟨10, 0, 0⟩ ⟨1, 1, 1⟩ < 0) ∧
    fragmentMain (fun _ => 0) 1 1 1 1 1 100 (8/10) 128 256 (fun _ => 0)
      ⟨1, 1, 1, 1⟩ ⟨10, 0, 0⟩ ⟨1, 1, 1⟩ = (⟨0, 0, 0, 0⟩, 0) :=
  ⟨Or.inl (by norm_num [slabTNear, slabTFar]),
    fragmentMain_miss_transparent _ _ _ _ _ _ _ _ _ _ _ _ _ _
      one_ne_zero one_ne_zero one_ne_zero (by decide)
      (Or.inl (by norm_num [slabTNear, slabTFar]))⟩

/-- C7: with the opacity inside [0, 1], the front-to-back compositing
update of the marching loop keeps the accumulated alpha monotonically
non-decreasing and never above 1 at every step: from any accumulator whose
alpha lies in [0, 1] (in particular every intermediate accumulator of a ray
started at 0), the loop result alpha is at least the starting alpha and at
most 1.  The windowed density is clamped into [0, 1] by the shader itself,
so no extra hypothesis on the samples is needed. -/
theorem marchLoop_alpha_monotone (A : Nat → ℚ) (texW texH slices volW volH : Nat)
    (threshold opacity windowLevel windowWidth : ℚ) (light : Nat → ℚ)
    (ro rd : V3) (tF : ℚ) (hop0 : 0 ≤ opacity) (hop1 : opacity ≤ 1) :
    ∀ fuel tN accum count i, 0 ≤ accum.a → accum.a ≤ 1 →
      accum.a ≤ (marchLoop A texW texH slices volW volH threshold opacity
          windowLevel windowWidth light ro rd tF fuel tN accum count i).1.a ∧
      (marchLoop A texW texH slices volW volH threshold opacity windowLevel
          windowWidth light ro rd tF fuel tN accum count i).1.a ≤ 1 := by
  intro fuel
  induction fuel with
  | zero =>
    intro tN accum count i h0 h1
    exact ⟨le_refl _, h1⟩
  | succ fuel ih =>
    intro tN accum count i h0 h1
    rw [marchLoop]
    by_cases hbrk : tN ≥ tF ∨ accum.a ≥ 95/100
    · rw [if_pos hbrk]
      exact ⟨le_refl _, h1⟩
    · rw [if_neg hbrk]
      simp only
      set nd := ratClamp ((sampleVolume A texW texH slices volW volH
        (ro.x + rd.x * tN + 1/2, ro.y + rd.y * tN + 1/2, ro.z + rd.z * tN + 1/2) -
          (windowLevel - windowWidth * (1/2))) /
        (windowLevel + windowWidth * (1/2) - (windowLevel - windowWidth * (1/2)))) 0 1
        with hnd
      obtain ⟨hnd0, hnd1⟩ := ratClamp01_mem ((sampleVolume A texW texH slices volW volH
        (ro.x + rd.x * tN + 1/2, ro.y + rd.y * tN + 1/2, ro.z + rd.z * tN + 1/2) -
          (windowLevel - windowWidth * (1/2))) /
        (windowLevel + windowWidth * (1/2) - (windowLevel - windowWidth * (1/2))))
      rw [← hnd] at hnd0 hnd1
      by_cases hth : nd > threshold / 255
      · rw [if_pos hth]
        have hva0 : 0 ≤ nd * opacity := mul_nonneg hnd0 hop0
        have hva1 : nd * opacity ≤ 1 := mul_le_one₀ hnd1 hop0 hop1
        have hstep : accum.a ≤ accum.a + (1 - accum.a) * (nd * opacity) :=
          le_add_of_nonneg_right (mul_nonneg (by linarith) hva0)
        have hstep1 : accum.a + (1 - accum.a) * (nd * opacity) ≤ 1 := by
          have hmul : (1 - accum.a) * (nd * opacity) ≤ (1 - accum.a) :=
            mul_le_of_le_one_right (by linarith) hva1
          linarith
        obtain ⟨i1, i2⟩ := ih (tN + 1/100)
          ⟨accum.r + (1 - accum.a) * (nd * (light i) * (nd * opacity)),
            accum.g + (1 - accum.a) * (nd * (light i) * (nd * opacity)),
            accum.b + (1 - accum.a) * (nd * (light i) * (nd * opacity)),
            accum.a + (1 - accum.a) * (nd * opacity)⟩
          (count + 1 + 6) (i + 1) (le_trans h0 hstep) hstep1
        exact ⟨le_trans hstep i1, i2⟩
      · rw [if_neg hth]
        exact ih (tN + 1/100) accum (count + 1) (i + 1) h0 h1

/-- C7 witness: a three-step march with opacity one half starting from the
zero accumulator keeps the alpha between 0 and 1. -/
theorem marchLoop_alpha_monotone_witness :
    (0 : ℚ) ≤ 1/2 ∧ (1/2 : ℚ) ≤ 1 ∧
    ((0 : ℚ) ≤ (marchLoop (fun _ => 128) 1 1 1 1 1 100 (1/2) 128 256 (fun _ => 1)
        ⟨0, 0, 0⟩ ⟨0, 0, 1⟩ 1 3 0 ⟨0, 0, 0, 0⟩ 0 0).1.a ∧
      (marchLoop (fun _ => 128) 1 1 1 1 1 100 (1/2) 128 256 (fun _ => 1)
        ⟨0, 0, 0⟩ ⟨0, 0, 1⟩ 1 3 0 ⟨0, 0, 0, 0⟩ 0 0).1.a ≤ 1) :=
  ⟨by norm_num, by norm_num,
    marchLoop_alpha_monotone (fun _ => 128) 1 1 1 1 1 100 (1/2) 128 256 (fun _ => 1)
      ⟨0, 0, 0⟩ ⟨0, 0, 1⟩ 1 (by norm_num) (by norm_num) 3 0 ⟨0, 0, 0, 0⟩ 0 0
      (le_refl 0) (by norm_num)⟩

/-! ## Slice locality of the sampler -/

/-- The slice (tile) index that an atlas texel at flat index i belongs to,
inverting the tiling of section 3 of the spec. -/
def texTileOf (w h d i : Nat) : Nat :=
  (i / texWidthOf w d / h) * tileCountPerRow d + (i % texWidthOf w d) / w

lemma texWidthOf_pos {w d : Nat} (hw : 0 < w) (hd : 0 < d) : 0 < texWidthOf w d :=
  Nat.mul_pos (tileCountPerRow_pos hd) hw

lemma texHeightOf_pos {h d : Nat} (hh : 0 < h) (hd : 0 < d) : 0 < texHeightOf h d :=
  Nat.mul_pos (tileRowsOf_pos hd) hh

/-- Evaluation of the sampler at z = 0: the clamp moves z to 0.001, the
slice index becomes 0 with fraction d/1000, and the result mixes the tile-0
texel with the tile-1 texel at weight d/1000. -/
lemma sampleVolume_z0_eval (X : Nat → ℚ) (w h d : Nat) (x y : ℚ)
    (hw : 0 < w) (hh : 0 < h) (hd2 : 2 ≤ d) (hd999 : d ≤ 999) :
    sampleVolume X (texWidthOf w d) (texHeightOf h d) d w h (x, y, 0) =
      X ((⌊ratClamp y (1/1000) (999/1000) * (h : ℚ)⌋).toNat * texWidthOf w d +
          (⌊ratClamp x (1/1000) (999/1000) * (w : ℚ)⌋).toNat) *
        (1 - 1/1000 * (d : ℚ)) +
      X ((⌊ratClamp y (1/1000) (999/1000) * (h : ℚ)⌋).toNat * texWidthOf w d +
          (w + (⌊ratClamp x (1/1000) (999/1000) * (w : ℚ)⌋).toNat)) *
        (1/1000 * (d : ℚ)) := by
  have hd0 : 0 < d := by omega
  have ht2 : 2 ≤ tileCountPerRow d := tileCountPerRow_two_le hd2
  have htw0 : (0 : ℚ) < (texWidthOf w d : ℚ) := by exact_mod_cast texWidthOf_pos hw hd0
  have hth0 : (0 : ℚ) < (texHeightOf h d : ℚ) := by exact_mod_cast texHeightOf_pos hh hd0
  have hwq : (0 : ℚ) < (w : ℚ) := by exact_mod_cast hw
  have htq : (0 : ℚ) < (tileCountPerRow d : ℚ) := by
    exact_mod_cast tileCountPerRow_pos hd0
  have hdq : (2 : ℚ) ≤ (d : ℚ) := by exact_mod_cast hd2
  have hdq9 : (d : ℚ) ≤ 999 := by exact_mod_cast hd999
  have hpz : ratClamp (0 : ℚ) (1/1000) (999/1000) = 1/1000 := by
    norm_num [ratClamp]
  have hpx0 : (0 : ℚ) ≤ ratClamp x (1/1000) (999/1000) :=
    le_trans (by norm_num) (ratClamp_unit_mem x).1
  have hfz : ⌊(1 : ℚ)/1000 * (d : ℚ)⌋ = 0 := by
    rw [Int.floor_eq_zero_iff, Set.mem_Ico]
    constructor
    · positivity
    · linarith
  have hspr : (texWidthOf w d : ℚ) / (w : ℚ) = (tileCountPerRow d : ℚ) := by
    rw [texWidthOf]
    push_cast
    exact mul_div_cancel_right₀ _ (ne_of_gt hwq)
  have hfz1 : ⌊(1 : ℚ) / (tileCountPerRow d : ℚ)⌋ = 0 := by
    rw [Int.floor_eq_zero_iff, Set.mem_Ico]
    constructor
    · positivity
    · rw [div_lt_one htq]
      exact_mod_cast ht2
  have hcancelw : (w : ℚ) / (texWidthOf w d : ℚ) * (texWidthOf w d : ℚ) = (w : ℚ) :=
    div_mul_cancel₀ _ (ne_of_gt htw0)
  have hcancelh : (h : ℚ) / (texHeightOf h d : ℚ) * (texHeightOf h d : ℚ) = (h : ℚ) :=
    div_mul_cancel₀ _ (ne_of_gt hth0)
  have hXw : ratClamp x (1/1000) (999/1000) * ((w : ℚ) / (texWidthOf w d : ℚ)) *
      (texWidthOf w d : ℚ) = ratClamp x (1/1000) (999/1000) * (w : ℚ) := by
    rw [mul_assoc, hcancelw]
  have hYh : ratClamp y (1/1000) (999/1000) * ((h : ℚ) / (texHeightOf h d : ℚ)) *
      (texHeightOf h d : ℚ) = ratClamp y (1/1000) (999/1000) * (h : ℚ) := by
    rw [mul_assoc, hcancelh]
  have hNu : (ratClamp x (1/1000) (999/1000) * ((w : ℚ) / (texWidthOf w d : ℚ)) +
      (w : ℚ) / (texWidthOf w d : ℚ)) * (texWidthOf w d : ℚ) =
      ratClamp x (1/1000) (999/1000) * (w : ℚ) + (w : ℚ) := by
    rw [add_mul, mul_assoc, hcancelw]
  have htn : (⌊ratClamp x (1/1000) (999/1000) * (w : ℚ)⌋ + (w : ℤ)).toNat =
      w + (⌊ratClamp x (1/1000) (999/1000) * (w : ℚ)⌋).toNat := by
    have h0 : 0 ≤ ⌊ratClamp x (1/1000) (999/1000) * (w : ℚ)⌋ :=
      floor_unit_mul_nonneg hpx0
    omega
  simp only [sampleVolume, tex2D, glslMod, ratFloorQ, hpz, hfz, hspr, hfz1,
    Int.cast_zero, zero_div, Int.floor_zero, zero_mul, mul_zero, sub_zero,
    add_zero, zero_add, one_mul, hXw, hYh, hNu, Int.floor_add_nat, htn]
  rw [if_pos]
  constructor
  · have hdpos : (0 : ℚ) < (d : ℚ) := by linarith
    exact mul_pos (by norm_num) hdpos
  · linarith


/-- Evaluation of the sampler at z = 1 - eps for 0 < eps at most 0.001: the
clamp moves z to 0.999, the slice index becomes d - 1 which is the last
slice, so no interpolation happens and only the tile of slice d - 1 is
read. -/
lemma sampleVolume_z1_eval (X : Nat → ℚ) (w h d : Nat) (x y ε : ℚ)
    (hw : 0 < w) (hh : 0 < h) (hd2 : 2 ≤ d) (hd999 : d ≤ 999)
    (hε0 : 0 < ε) (hε1 : ε ≤ 1/1000) :
    sampleVolume X (texWidthOf w d) (texHeightOf h d) d w h (x, y, 1 - ε) =
      X (((d - 1) / tileCountPerRow d * h +
            (⌊ratClamp y (1/1000) (999/1000) * (h : ℚ)⌋).toNat) * texWidthOf w d +
          ((d - 1) % tileCountPerRow d * w +
            (⌊ratClamp x (1/1000) (999/1000) * (w : ℚ)⌋).toNat)) := by
  have hd0 : 0 < d := by omega
  have htw0 : (0 : ℚ) < (texWidthOf w d : ℚ) := by exact_mod_cast texWidthOf_pos hw hd0
  have hth0 : (0 : ℚ) < (texHeightOf h d : ℚ) := by exact_mod_cast texHeightOf_pos hh hd0
  have hwq : (0 : ℚ) < (w : ℚ) := by exact_mod_cast hw
  have htq : (0 : ℚ) < (tileCountPerRow d : ℚ) := by
    exact_mod_cast tileCountPerRow_pos hd0
  have hdq : (2 : ℚ) ≤ (d : ℚ) := by exact_mod_cast hd2
  have hdq9 : (d : ℚ) ≤ 999 := by exact_mod_cast hd999
  have hpx0 : (0 : ℚ) ≤ ratClamp x (1/1000) (999/1000) :=
    le_trans (by norm_num) (ratClamp_unit_mem x).1
  have hpy0 : (0 : ℚ) ≤ ratClamp y (1/1000) (999/1000) :=
    le_trans (by norm_num) (ratClamp_unit_mem y).1
  have h999 : (999 : ℚ)/1000 ≤ 1 - ε := by linarith
  have hpz : ratClamp (1 - ε) (1/1000) (999/1000) = 999/1000 := by
    rw [ratClamp, max_eq_left (le_trans (by norm_num) h999), min_eq_right h999]
  have hsub : ((d - 1 : Nat) : ℚ) = (d : ℚ) - 1 := by
    rw [Nat.cast_sub (by omega : 1 ≤ d), Nat.cast_one]
  have hfz : ⌊(999 : ℚ)/1000 * (d : ℚ)⌋ = (d : ℤ) - 1 := by
    rw [Int.floor_eq_iff]
    push_cast
    constructor
    · linarith
    · linarith
  have hcast : (((d : ℤ) - 1 : ℤ) : ℚ) = (d : ℚ) - 1 := by push_cast; ring
  have hspr : (texWidthOf w d : ℚ) / (w : ℚ) = (tileCountPerRow d : ℚ) := by
    rw [texWidthOf]
    push_cast
    exact mul_div_cancel_right₀ _ (ne_of_gt hwq)
  have hrow : ⌊((d : ℚ) - 1) / (tileCountPerRow d : ℚ)⌋ =
      (((d - 1) / tileCountPerRow d : Nat) : ℤ) := by
    rw [← hsub]
    exact floor_natCast_div (d - 1) (tileCountPerRow d)
  have hcol : glslMod ((d : ℚ) - 1) (tileCountPerRow d : ℚ) =
      (((d - 1) % tileCountPerRow d : Nat) : ℚ) := by
    rw [← hsub]
    exact glslMod_natCast (d - 1) (tileCountPerRow d)
  have hcancelw : (w : ℚ) / (texWidthOf w d : ℚ) * (texWidthOf w d : ℚ) = (w : ℚ) :=
    div_mul_cancel₀ _ (ne_of_gt htw0)
  have hcancelh : (h : ℚ) / (texHeightOf h d : ℚ) * (texHeightOf h d : ℚ) = (h : ℚ) :=
    div_mul_cancel₀ _ (ne_of_gt hth0)
  have hU : (ratClamp x (1/1000) (999/1000) * ((w : ℚ) / (texWidthOf w d : ℚ)) +
      (((d - 1) % tileCountPerRow d : Nat) : ℚ) * ((w : ℚ) / (texWidthOf w d : ℚ))) *
      (texWidthOf w d : ℚ) =
      ratClamp x (1/1000) (999/1000) * (w : ℚ) +
        (((d - 1) % tileCountPerRow d * w : Nat) : ℚ) := by
    rw [add_mul, mul_assoc, mul_assoc, hcancelw]
    push_cast
    ring
  have hV : (ratClamp y (1/1000) (999/1000) * ((h : ℚ) / (texHeightOf h d : ℚ)) +
      (((d - 1) / tileCountPerRow d : Nat) : ℚ) * ((h : ℚ) / (texHeightOf h d : ℚ))) *
      (texHeightOf h d : ℚ) =
      ratClamp y (1/1000) (999/1000) * (h : ℚ) +
        (((d - 1) / tileCountPerRow d * h : Nat) : ℚ) := by
    rw [add_mul, mul_assoc, mul_assoc, hcancelh]
    push_cast
    ring
  have htnx : (⌊ratClamp x (1/1000) (999/1000) * (w : ℚ)⌋ +
      ((d - 1) % tileCountPerRow d * w : Nat)).toNat =
      (d - 1) % tileCountPerRow d * w +
        (⌊ratClamp x (1/1000) (999/1000) * (w : ℚ)⌋).toNat := by
    have h0 : 0 ≤ ⌊ratClamp x (1/1000) (999/1000) * (w : ℚ)⌋ :=
      floor_unit_mul_nonneg hpx0
    omega
  have htny : (⌊ratClamp y (1/1000) (999/1000) * (h : ℚ)⌋ +
      ((d - 1) / tileCountPerRow d * h : Nat)).toNat =
      (d - 1) / tileCountPerRow d * h +
        (⌊ratClamp y (1/1000) (999/1000) * (h : ℚ)⌋).toNat := by
    have h0 : 0 ≤ ⌊ratClamp y (1/1000) (999/1000) * (h : ℚ)⌋ :=
      floor_unit_mul_nonneg hpy0
    omega
  simp only [sampleVolume, tex2D, ratFloorQ, hpz, hfz, hcast, hspr, hrow, hcol,
    Int.cast_natCast, hU, hV, Int.floor_add_nat, htnx, htny]
  rw [if_neg]
  intro hc
  exact lt_irrefl _ hc.2
lemma texTileOf_tile0 {w h d tyn txn : Nat} (hw : 0 < w) (hh : 0 < h) (hd : 0 < d)
    (htyn : tyn < h) (htxn : txn < w) :
    texTileOf w h d (tyn * texWidthOf w d + txn) = 0 := by
  have ht := tileCountPerRow_pos hd
  have htxn2 : txn < texWidthOf w d := by
    have : w ≤ texWidthOf w d := Nat.le_mul_of_pos_left w ht
    omega
  have hdm : (txn + tyn * texWidthOf w d) / texWidthOf w d = tyn ∧
      (txn + tyn * texWidthOf w d) % texWidthOf w d = txn := div_mod_of_add_mul htxn2
  rw [texTileOf, Nat.add_comm (tyn * texWidthOf w d) txn, hdm.1, hdm.2,
    Nat.div_eq_of_lt htyn, Nat.div_eq_of_lt htxn]
  omega

lemma texTileOf_tile1 {w h d tyn txn : Nat} (hw : 0 < w) (hh : 0 < h)
    (ht2 : 2 ≤ tileCountPerRow d) (htyn : tyn < h) (htxn : txn < w) :
    texTileOf w h d (tyn * texWidthOf w d + (w + txn)) = 1 := by
  have hwt : w + txn < texWidthOf w d := by
    rw [texWidthOf]
    have h1 : w + txn < 2 * w := by omega
    have h2 : 2 * w ≤ tileCountPerRow d * w := Nat.mul_le_mul_right w ht2
    omega
  have hdm : (w + txn + tyn * texWidthOf w d) / texWidthOf w d = tyn ∧
      (w + txn + tyn * texWidthOf w d) % texWidthOf w d = w + txn :=
    div_mod_of_add_mul hwt
  rw [texTileOf, Nat.add_comm (tyn * texWidthOf w d) (w + txn), hdm.1, hdm.2,
    Nat.div_eq_of_lt htyn, Nat.add_comm w txn, Nat.add_div_right txn hw,
    Nat.div_eq_of_lt htxn]
  omega

lemma texTileOf_tileLast {w h d tyn txn : Nat} (hw : 0 < w) (hh : 0 < h) (hd : 0 < d)
    (htyn : tyn < h) (htxn : txn < w) :
    texTileOf w h d
      (((d - 1) / tileCountPerRow d * h + tyn) * texWidthOf w d +
        ((d - 1) % tileCountPerRow d * w + txn)) = d - 1 := by
  have ht := tileCountPerRow_pos hd
  have hB : (d - 1) % tileCountPerRow d * w + txn < texWidthOf w d :=
    col_offset_lt (Nat.mod_lt _ ht) htxn
  have hdm : ((d - 1) % tileCountPerRow d * w + txn +
      ((d - 1) / tileCountPerRow d * h + tyn) * texWidthOf w d) / texWidthOf w d =
        (d - 1) / tileCountPerRow d * h + tyn ∧
      ((d - 1) % tileCountPerRow d * w + txn +
      ((d - 1) / tileCountPerRow d * h + tyn) * texWidthOf w d) % texWidthOf w d =
        (d - 1) % tileCountPerRow d * w + txn := div_mod_of_add_mul hB
  rw [texTileOf, Nat.add_comm (((d - 1) / tileCountPerRow d * h + tyn) * texWidthOf w d)
    ((d - 1) % tileCountPerRow d * w + txn), hdm.1, hdm.2]
  have hda : ((d - 1) / tileCountPerRow d * h + tyn) / h = (d - 1) / tileCountPerRow d := by
    rw [Nat.add_comm]
    exact (div_mod_of_add_mul htyn).1
  have hdb : ((d - 1) % tileCountPerRow d * w + txn) / w = (d - 1) % tileCountPerRow d := by
    rw [Nat.add_comm]
    exact (div_mod_of_add_mul htxn).1
  rw [hda, hdb, Nat.mul_comm ((d - 1) / tileCountPerRow d) (tileCountPerRow d)]
  exact Nat.div_add_mod (d - 1) (tileCountPerRow d)

/-- C3 amended: slice locality of the sampler, for volumes with depth
between 2 and 999 packed into the atlas layout of the packer.  At z = 0 the
sample depends only on atlas texels of tiles 0 and 1 (slice 1 enters with
weight depth/1000 because of the 0.001 clamp), so two atlases agreeing on
those tiles sample equally; at z = 1 - eps (0 < eps at most 0.001) the
sample depends only on the tile of the last slice d - 1.  In particular no
wraparound to the opposite end of the stack occurs for depth at least 3;
for depth 2 slice 1 is itself the last slice, which is the corrected part
of the claim. -/
theorem sampleVolume_slice_locality (w h d : Nat) (A A2 B B2 : Nat → ℚ) (x y ε : ℚ)
    (hw : 0 < w) (hh : 0 < h) (hd2 : 2 ≤ d) (hd999 : d ≤ 999)
    (hA : ∀ i, texTileOf w h d i ≤ 1 → A i = A2 i)
    (hB : ∀ i, texTileOf w h d i = d - 1 → B i = B2 i)
    (hε0 : 0 < ε) (hε1 : ε ≤ 1/1000) :
    sampleVolume A (texWidthOf w d) (texHeightOf h d) d w h (x, y, 0) =
      sampleVolume A2 (texWidthOf w d) (texHeightOf h d) d w h (x, y, 0) ∧
    sampleVolume B (texWidthOf w d) (texHeightOf h d) d w h (x, y, 1 - ε) =
      sampleVolume B2 (texWidthOf w d) (texHeightOf h d) d w h (x, y, 1 - ε) := by
  have hd0 : 0 < d := by omega
  have ht2 := tileCountPerRow_two_le hd2
  have hclx0 : (0 : ℚ) ≤ ratClamp x (1/1000) (999/1000) :=
    le_trans (by norm_num) (ratClamp_unit_mem x).1
  have hclx1 : ratClamp x (1/1000) (999/1000) < 1 :=
    lt_of_le_of_lt (ratClamp_unit_mem x).2 (by norm_num)
  have hcly0 : (0 : ℚ) ≤ ratClamp y (1/1000) (999/1000) :=
    le_trans (by norm_num) (ratClamp_unit_mem y).1
  have hcly1 : ratClamp y (1/1000) (999/1000) < 1 :=
    lt_of_le_of_lt (ratClamp_unit_mem y).2 (by norm_num)
  have htxn : (⌊ratClamp x (1/1000) (999/1000) * (w : ℚ)⌋).toNat < w :=
    floor_unit_mul_toNat_lt hw hclx0 hclx1
  have htyn : (⌊ratClamp y (1/1000) (999/1000) * (h : ℚ)⌋).toNat < h :=
    floor_unit_mul_toNat_lt hh hcly0 hcly1
  constructor
  · rw [sampleVolume_z0_eval A w h d x y hw hh hd2 hd999,
      sampleVolume_z0_eval A2 w h d x y hw hh hd2 hd999,
      hA _ (by rw [texTileOf_tile0 hw hh hd0 htyn htxn]; omega),
      hA _ (by rw [texTileOf_tile1 hw hh ht2 htyn htxn])]
  · rw [sampleVolume_z1_eval B w h d x y ε hw hh hd2 hd999 hε0 hε1,
      sampleVolume_z1_eval B2 w h d x y ε hw hh hd2 hd999 hε0 hε1,
      hB _ (texTileOf_tileLast hw hh hd0 htyn htxn)]

/-- C3 counterexample: a depth-2 atlas of 1 by 1 slices (texel 0 holds the
first slice, texel 1 the last).  The two atlases agree on every first-slice
texel, yet sampling at z = 0 yields 51/100 for one and 0 for the other: the
0.001 clamp makes z = 0 interpolate toward slice 1, which for depth 2 is
the slice at the opposite end of the stack. -/
theorem sampleVolume_z0_mixes_last_slice :
    (fun i => if i = 0 then (0 : ℚ) else 255) 0 = (fun _ => (0 : ℚ)) 0 ∧
    sampleVolume (fun i => if i = 0 then (0 : ℚ) else 255) 2 1 2 1 1 (1/2, 1/2, 0) =
      51/100 ∧
    sampleVolume (fun _ => (0 : ℚ)) 2 1 2 1 1 (1/2, 1/2, 0) = 0 := by
  refine ⟨rfl, ?_, ?_⟩ <;>
    norm_num [sampleVolume, tex2D, ratClamp, ratFloorQ, glslMod]

/-- C3 witness: a depth-3 volume of 1 by 1 slices with the zero atlas on
both sides of each agreement hypothesis. -/
theorem sampleVolume_slice_locality_witness :
    ((0 : Nat) < 1 ∧ 2 ≤ 3 ∧ 3 ≤ 999 ∧ (0 : ℚ) < 1/1000 ∧ (1/1000 : ℚ) ≤ 1/1000) ∧
    (sampleVolume (fun _ => (0 : ℚ)) (texWidthOf 1 3) (texHeightOf 1 3) 3 1 1
        ((1 : ℚ)/2, (1 : ℚ)/2, 0) =
      sampleVolume (fun _ => (0 : ℚ)) (texWidthOf 1 3) (texHeightOf 1 3) 3 1 1
        ((1 : ℚ)/2, (1 : ℚ)/2, 0) ∧
     sampleVolume (fun _ => (0 : ℚ)) (texWidthOf 1 3) (texHeightOf 1 3) 3 1 1
        ((1 : ℚ)/2, (1 : ℚ)/2, 1 - 1/1000) =
      sampleVolume (fun _ => (0 : ℚ)) (texWidthOf 1 3) (texHeightOf 1 3) 3 1 1
        ((1 : ℚ)/2, (1 : ℚ)/2, 1 - 1/1000)) :=
  ⟨⟨by decide, by decide, by decide, by norm_num, le_refl _⟩,
    sampleVolume_slice_locality 1 1 3 _ _ _ _ ((1 : ℚ)/2) ((1 : ℚ)/2) (1/1000)
      (by decide) (by decide) (by decide) (by decide)
      (fun i _ => rfl) (fun i _ => rfl) (by norm_num) (le_refl _)⟩
